import Mathlib

/-!
Verification of the Sentoru review-agent specification: a shallow embedding of
the diff-coordinate engine (DiffIndexer, PatchValidator) and of the sequential
review pipeline, together with proofs of the specified properties.

The repository ships the agent prompts, the repository guide and the CI/deploy
workflows; the deterministic core (indexing, validation, sequencing) is given
by the specification, so the definitions below are modelled from the spec's
words, except for the deploy workflow's environment variables, which are taken
from the workflow file itself.
-/

namespace Sentoru

/-- Modelled from the spec: kind of a DiffLine (§3), context, added or removed. -/
inductive LineKind
  | context
  | added
  | removed
  deriving DecidableEq, Repr

/-- Modelled from the spec: a parsed hunk of a unified diff before coordinate
assignment — old/new range start and length from the header, and the body
lines, each classified by its leading sign character (§4.1). -/
structure RawHunk where
  oldStart : Nat
  oldLen : Nat
  newStart : Nat
  newLen : Nat
  body : List (LineKind × String)
  deriving DecidableEq, Repr

/-- Modelled from the spec: a parsed file diff before coordinate assignment. -/
structure RawFileDiff where
  path : String
  oldPath : String
  hunks : List RawHunk
  deriving DecidableEq, Repr

/-- Modelled from the spec: a parsed unified diff, an ordered sequence of file
diffs (§3 Diff). -/
abbrev RawDiff := List RawFileDiff

/-- Modelled from the spec: a DiffLine (§3) — kind, raw text, optional old-file
line number (context/removed), optional new-file line number (context/added),
and a position, a monotonically increasing integer unique in the whole Diff. -/
structure DiffLine where
  kind : LineKind
  text : String
  oldLine : Option Nat
  newLine : Option Nat
  position : Nat
  deriving DecidableEq, Repr

/-- Modelled from the spec: a Hunk (§3) with its coordinate-assigned lines. -/
structure Hunk where
  oldStart : Nat
  oldLen : Nat
  newStart : Nat
  newLen : Nat
  lines : List DiffLine
  deriving DecidableEq, Repr

/-- Modelled from the spec: a FileDiff (§3) with its coordinate-assigned hunks. -/
structure FileDiff where
  path : String
  oldPath : String
  hunks : List Hunk
  deriving DecidableEq, Repr

/-- Modelled from the spec: a Diff (§3), immutable once parsed. -/
abbrev Diff := List FileDiff

/-- Modelled from the spec: one record of the CoordinateMap (§3), relating a
(file path, new-file line number) pair to its assigned position. -/
structure CoordEntry where
  path : String
  newLine : Nat
  position : Nat
  deriving DecidableEq, Repr

/-- Modelled from the spec: the CoordinateMap (§3), the bidirectional lookup
between new-file line numbers and diff positions, built once per Diff and
read-only after construction. -/
structure CoordinateMap where
  entries : List CoordEntry
  deriving DecidableEq, Repr

/-- Modelled from the spec (§4.1): assign a position and old/new line numbers to
each body line of one hunk. Every body line consumes exactly one position;
context lines advance both line counters, added lines only the new counter,
removed lines only the old counter. -/
def numberBody (pos oldL newL : Nat) : List (LineKind × String) → List DiffLine
  | [] => []
  | (LineKind.context, t) :: rest =>
      ⟨LineKind.context, t, some oldL, some newL, pos⟩ ::
        numberBody (pos + 1) (oldL + 1) (newL + 1) rest
  | (LineKind.added, t) :: rest =>
      ⟨LineKind.added, t, none, some newL, pos⟩ ::
        numberBody (pos + 1) oldL (newL + 1) rest
  | (LineKind.removed, t) :: rest =>
      ⟨LineKind.removed, t, some oldL, none, pos⟩ ::
        numberBody (pos + 1) (oldL + 1) newL rest

/-- Modelled from the spec (§4.1): number the hunks of one file, threading the
position counter across hunks (hunk headers do not consume a position); returns
the numbered hunks and the next free position. -/
def numberHunks (pos : Nat) : List RawHunk → List Hunk × Nat
  | [] => ([], pos)
  | h :: hs =>
      let lines := numberBody pos h.oldStart h.newStart h.body
      let rest := numberHunks (pos + h.body.length) hs
      (⟨h.oldStart, h.oldLen, h.newStart, h.newLen, lines⟩ :: rest.1, rest.2)

/-- Modelled from the spec (§4.1, §8): number the files of a diff, positions
running continuously across files (the document-relative coordinate system). -/
def numberFiles (pos : Nat) : List RawFileDiff → Diff
  | [] => []
  | f :: fs =>
      let numbered := numberHunks pos f.hunks
      ⟨f.path, f.oldPath, numbered.1⟩ :: numberFiles numbered.2 fs

/-- Modelled from the spec (§3): the CoordinateMap record of one diff line — a
line carrying a new-file line number (context or added) yields one entry,
a removed line yields none. -/
def entryOfLine (path : String) (l : DiffLine) : Option CoordEntry :=
  l.newLine.map (fun n => ⟨path, n, l.position⟩)

/-- Modelled from the spec (§3): CoordinateMap records contributed by one hunk. -/
def entriesOfHunk (path : String) (h : Hunk) : List CoordEntry :=
  h.lines.filterMap (entryOfLine path)

/-- Modelled from the spec (§3): CoordinateMap records contributed by one file. -/
def entriesOfFile (f : FileDiff) : List CoordEntry :=
  f.hunks.flatMap (entriesOfHunk f.path)

/-- Modelled from the spec (§3): the CoordinateMap, built once per Diff. -/
def buildMap (d : Diff) : CoordinateMap :=
  ⟨d.flatMap entriesOfFile⟩

/-- Modelled from the spec (§4.1): the pure indexing contract
index(rawDiff) = (Diff, CoordinateMap); positions start at 1 immediately after
the first hunk header. -/
def index (d : RawDiff) : Diff × CoordinateMap :=
  let files := numberFiles 1 d
  (files, buildMap files)

/-- Modelled from the spec (§3): forward lookup of the CoordinateMap, from a
(file path, new-file line number) pair to its position. -/
def lineToPos (cm : CoordinateMap) (path : String) (n : Nat) : Option Nat :=
  (cm.entries.find? (fun e => (e.path, e.newLine) == (path, n))).map
    (fun e => e.position)

/-- Modelled from the spec (§3): inverse lookup of the CoordinateMap, from a
position back to the (file path, new-file line number) pair of its line. -/
def posToLine (cm : CoordinateMap) (p : Nat) : Option (String × Nat) :=
  (cm.entries.find? (fun e => e.position == p)).map (fun e => (e.path, e.newLine))

/-- Modelled from the spec (§3 Hunk invariant): count of body lines present on
the new side of a hunk (context and added lines). -/
def newCount : List (LineKind × String) → Nat
  | [] => 0
  | (LineKind.context, _) :: rest => newCount rest + 1
  | (LineKind.added, _) :: rest => newCount rest + 1
  | (LineKind.removed, _) :: rest => newCount rest

/-- Modelled from the spec (§3 Hunk invariant): count of body lines present on
the old side of a hunk (context and removed lines). -/
def oldCount : List (LineKind × String) → Nat
  | [] => 0
  | (LineKind.context, _) :: rest => oldCount rest + 1
  | (LineKind.added, _) :: rest => oldCount rest
  | (LineKind.removed, _) :: rest => oldCount rest + 1

/-- Modelled from the spec (§3, §4.1): well-formedness of a file's hunk list for
a valid unified diff — the header length fields equal the body counts of the
corresponding sign, and hunks appear in file order: each hunk that introduces
new-side lines starts at or after the running new-line counter (a hunk with a
zero-length new side constrains nothing, its start points before the deletion
point and is not a valid line number). -/
def validHunksFrom (lo : Nat) : List RawHunk → Bool
  | [] => true
  | h :: hs =>
      (decide (newCount h.body = 0) || decide (lo ≤ h.newStart)) &&
      decide (h.newLen = newCount h.body) &&
      decide (h.oldLen = oldCount h.body) &&
      validHunksFrom (max lo (h.newStart + newCount h.body)) hs

/-- Modelled from the spec (§3, §4.1): a valid unified diff — file paths are
distinct and every file's hunks are well formed, new-side line numbers starting
at 1. -/
def ValidDiff (d : RawDiff) : Prop :=
  (d.map RawFileDiff.path).Nodup ∧ ∀ f ∈ d, validHunksFrom 1 f.hunks = true

instance : DecidablePred ValidDiff := fun d =>
  inferInstanceAs (Decidable
    ((d.map RawFileDiff.path).Nodup ∧ ∀ f ∈ d, validHunksFrom 1 f.hunks = true))

/-- Total length of the hunk bodies of a raw hunk list (number of positions the
hunks consume). -/
def bodyLenSum : List RawHunk → Nat
  | [] => 0
  | h :: hs => h.body.length + bodyLenSum hs

/-! ## PatchValidator -/

/-- Modelled from the spec (§7): the structural error taxonomy — each fatal to
the affected item only, never to the whole run. -/
inductive StructuralError
  | MalformedDiffError
  | UnknownFileError
  | OutOfDiffRangeError
  | InvertedRangeError
  | UnsafePatchContentError
  deriving DecidableEq, Repr

/-- Modelled from the spec (§3 Patch, §6): a proposed Patch as the Fixing
stage's collaborator emits it — file path, a start/end new-file line pair as
the requested range, replacement text and justification text. -/
structure Patch where
  file : String
  startLine : Nat
  endLine : Nat
  replacement : String
  justification : String
  deriving DecidableEq, Repr

/-- Modelled from the spec (§3, §6): the placement of a validated patch, either
a single diff position or a start/end new-file line pair. -/
inductive Placement
  | position (p : Nat)
  | lineRange (s e : Nat)
  deriving DecidableEq, Repr

/-- Modelled from the spec (§4.2): a ValidatedPatch, the pure output of
validate with platform-appropriate placement. -/
structure ValidatedPatch where
  file : String
  placement : Placement
  replacement : String
  justification : String
  deriving DecidableEq, Repr

/-- Modelled from the spec (§6, §9): the two supported output placement modes
behind one configuration switch. -/
inductive CoordMode
  | positionBased
  | lineBased
  deriving DecidableEq, Repr

/-- Coordinate mode a placement value belongs to. -/
def placementMode : Placement → CoordMode
  | Placement.position _ => CoordMode.positionBased
  | Placement.lineRange _ _ => CoordMode.lineBased

/-- New-file line numbers of a requested start/end range, inclusive on both
ends (empty when the end precedes the start). -/
def rangeLines (s e : Nat) : List Nat :=
  List.range' s (e + 1 - s)

/-- Whether a file path appears in the CoordinateMap's diff. -/
def fileKnown (cm : CoordinateMap) (path : String) : Bool :=
  cm.entries.any (fun e => e.path == path)

/-- Whether a needle occurs as a contiguous run inside a character list. -/
def hasInfixChars (needle : List Char) : List Char → Bool
  | [] => needle.isEmpty
  | c :: rest => needle.isPrefixOf (c :: rest) || hasInfixChars needle rest

/-- Modelled from the spec (§4.2 rule 5, §6): the literal fenced-suggestion
delimiter sequence that replacement text must not itself contain. -/
def suggestionFence : String := "```suggestion"

/-- Modelled from the spec (§4.2 rule 5): replacement text containing the
fenced-suggestion delimiter sequence is unsafe. -/
def unsafeReplacement (s : String) : Bool :=
  hasInfixChars suggestionFence.toList s.toList

/-- Modelled from the spec (§4.2): validate(patch, map), rules applied in
order — (1) the file must appear in the Diff, else UnknownFileError; (2) every
new-file line number of the requested range must exist in the CoordinateMap for
that file, else OutOfDiffRangeError; (3) in the position-based coordinate
system the patch is emitted as a single position, that of the last line of the
requested range; (4) in the line-number-based system start and end are emitted
directly with start ≤ end required, else InvertedRangeError; (5) replacement
text containing the fenced-suggestion delimiter is rejected with
UnsafePatchContentError. Pure transformation, no side effect. -/
def validate (mode : CoordMode) (cm : CoordinateMap) (p : Patch) :
    Except StructuralError ValidatedPatch :=
  if fileKnown cm p.file = false then Except.error StructuralError.UnknownFileError
  else if (rangeLines p.startLine p.endLine).all
      (fun ln => (lineToPos cm p.file ln).isSome) = false then
    Except.error StructuralError.OutOfDiffRangeError
  else
    match mode with
    | CoordMode.positionBased =>
        match lineToPos cm p.file p.endLine with
        | none => Except.error StructuralError.OutOfDiffRangeError
        | some q =>
            if unsafeReplacement p.replacement then
              Except.error StructuralError.UnsafePatchContentError
            else
              Except.ok ⟨p.file, Placement.position q, p.replacement, p.justification⟩
    | CoordMode.lineBased =>
        if p.endLine < p.startLine then Except.error StructuralError.InvertedRangeError
        else if unsafeReplacement p.replacement then
          Except.error StructuralError.UnsafePatchContentError
        else
          Except.ok
            ⟨p.file, Placement.lineRange p.startLine p.endLine, p.replacement,
              p.justification⟩

/-! ## ReviewPipeline -/

/-- Modelled from the spec (§3 Finding): file path, a line range in new-file
line numbers, natural-language rationale. -/
structure Finding where
  file : String
  startLine : Nat
  endLine : Nat
  rationale : String
  deriving DecidableEq, Repr

/-- Modelled from the spec (§4.3): the analysis stages of the review pipeline
(the optional knowledge-retrieval stage and the three ordered analysis
stages). -/
inductive Stage
  | searching
  | analyzing
  | fixing
  | testing
  deriving DecidableEq, Repr

/-- Modelled from the spec (§4.3): run-level status — running, the terminal
Done, or the terminal Failed carrying the stage that failed. -/
inductive RunStatus
  | running
  | done
  | failed (s : Stage)
  deriving DecidableEq, Repr

/-- Modelled from the spec (§7a): a structural rejection recorded against the
single affected item, one finding or one patch. -/
inductive RejectedItem
  | finding (f : Finding) (e : StructuralError)
  | patch (p : Patch) (e : StructuralError)
  deriving DecidableEq, Repr

/-- Modelled from the spec (§3 PipelineState, §4.3): the state threaded through
the stages of one run, together with the run status and the trace of invoked
stages. -/
structure Run where
  status : RunStatus
  knowledge : Option String
  findings : List Finding
  patches : List ValidatedPatch
  tests : List String
  rejections : List RejectedItem
  warnings : List String
  trace : List Stage
  deriving DecidableEq, Repr

/-- Modelled from the spec (§5, §6): the external collaborator outcomes of one
run, as the stages observe them — none stands for a non-recoverable collaborator
failure (timeout exhaustion or a malformed structured response after the one
corrective retry). -/
structure Collab where
  searchResult : Option String
  analyzeResult : Option (List Finding)
  fixResult : Option (List Patch)
  testResult : Option (List String)

/-- Modelled from the spec (§6): per-run configuration — the boolean-equivalent
flag enabling the retrieval stage, and the placement format, a configuration
choice resolved once per deployment. -/
structure Config where
  useRag : Bool
  mode : CoordMode
  deriving DecidableEq, Repr

/-- Fresh pipeline state at run start. -/
def initRun : Run :=
  ⟨RunStatus.running, none, [], [], [], [], [], []⟩

/-- Modelled from the spec (§4.2, §4.3 Analyzing): validation of one finding's
line range against the CoordinateMap — unknown files and out-of-range lines
are structural rejections. -/
def checkFinding (cm : CoordinateMap) (f : Finding) : Option StructuralError :=
  if fileKnown cm f.file = false then some StructuralError.UnknownFileError
  else if (rangeLines f.startLine f.endLine).all
      (fun ln => (lineToPos cm f.file ln).isSome) = false then
    some StructuralError.OutOfDiffRangeError
  else none

/-- Modelled from the spec (§4.3): the optional Searching stage — taken only if
the retrieval flag is set; on collaborator error the transition to Analyzing
still occurs but the absence is recorded. -/
def searchingStep (cfg : Config) (c : Collab) (r : Run) : Run :=
  match r.status with
  | RunStatus.running =>
      if cfg.useRag = false then r
      else
        match c.searchResult with
        | some s =>
            { r with knowledge := some s, trace := r.trace ++ [Stage.searching] }
        | none =>
            { r with knowledge := none,
                     warnings := r.warnings ++ ["knowledge retrieval failed"],
                     trace := r.trace ++ [Stage.searching] }
  | _ => r

/-- Modelled from the spec (§4.3): the Analyzing stage — a non-recoverable
collaborator failure drives the run to Failed; out-of-range findings are
dropped with a recorded rejection, not fatal to the stage. -/
def analyzingStep (cm : CoordinateMap) (c : Collab) (r : Run) : Run :=
  match r.status with
  | RunStatus.running =>
      match c.analyzeResult with
      | none =>
          { r with status := RunStatus.failed Stage.analyzing,
                   trace := r.trace ++ [Stage.analyzing] }
      | some fs =>
          { r with
              findings := fs.filter (fun f => (checkFinding cm f).isNone),
              rejections := r.rejections ++ fs.filterMap
                (fun f => (checkFinding cm f).map (RejectedItem.finding f)),
              trace := r.trace ++ [Stage.analyzing] }
  | _ => r

/-- Modelled from the spec (§4.3): the Fixing stage — invoked only if Analyzing
produced at least one finding; each proposed patch passes through validate,
rejected patches are recorded and excluded; if all patches are rejected the
stage still completes successfully with an empty patch set. -/
def fixingStep (mode : CoordMode) (cm : CoordinateMap) (c : Collab) (r : Run) :
    Run :=
  match r.status with
  | RunStatus.running =>
      if r.findings = [] then r
      else
        match c.fixResult with
        | none =>
            { r with status := RunStatus.failed Stage.fixing,
                     trace := r.trace ++ [Stage.fixing] }
        | some ps =>
            { r with
                patches := ps.filterMap (fun p => (validate mode cm p).toOption),
                rejections := r.rejections ++ ps.filterMap
                  (fun p =>
                    match validate mode cm p with
                    | Except.error e => some (RejectedItem.patch p e)
                    | Except.ok _ => none),
                trace := r.trace ++ [Stage.fixing] }
  | _ => r

/-- Modelled from the spec (§4.3): the Testing stage — invoked only if Fixing
produced at least one accepted patch; generated tests are not anchored to the
diff, so no further coordinate validation applies. -/
def testingStep (c : Collab) (r : Run) : Run :=
  match r.status with
  | RunStatus.running =>
      if r.patches = [] then r
      else
        match c.testResult with
        | none =>
            { r with status := RunStatus.failed Stage.testing,
                     trace := r.trace ++ [Stage.testing] }
        | some ts =>
            { r with tests := ts, trace := r.trace ++ [Stage.testing] }
  | _ => r

/-- Modelled from the spec (§4.3): a run still running after its stages is Done;
Done and Failed are terminal. -/
def finishRun (r : Run) : Run :=
  match r.status with
  | RunStatus.running => { r with status := RunStatus.done }
  | _ => r

/-- Modelled from the spec (§4.3): one review pipeline run — the strictly
sequential state machine Idle, optional Searching, Analyzing, Fixing, Testing,
Done, each stage's input being the previous stage's output. -/
def runPipeline (cfg : Config) (cm : CoordinateMap) (c : Collab) : Run :=
  finishRun (testingStep c (fixingStep cfg.mode cm c (analyzingStep cm c
    (searchingStep cfg c initRun))))

/-! ## Structured collaborator responses (Fixing stage protocol) -/

/-- Modelled from the spec (§6): structured text of a collaborator response,
as a JSON-like value. -/
inductive Json
  | null
  | bool (b : Bool)
  | str (s : String)
  | num (n : Int)
  | arr (xs : List Json)
  | obj (fields : List (String × Json))

/-- Field lookup in a JSON object; none for a non-object or an absent key. -/
def jsonGet (j : Json) (key : String) : Option Json :=
  match j with
  | Json.obj fields => fields.lookup key
  | _ => none

/-- Modelled from the spec (§6, fixer prompts): whether a patch string is
delimited by a literal fenced-suggestion block — it opens with the
three-backtick suggestion fence and closes with three backticks. -/
def fencedSuggestion (s : String) : Bool :=
  suggestionFence.toList.isPrefixOf s.toList &&
    List.isSuffixOf "```".toList s.toList

/-- Modelled from the spec (§6): the placement carried by one patch object of a
patch-set response — a position, or a start_line/end_line pair. -/
inductive RawPlacement
  | position (p : Int)
  | lineRange (s e : Int)
  deriving DecidableEq, Repr

/-- Modelled from the spec (§6): one element of a patch-set response — file
path, placement, fenced-suggestion text and justification comment. -/
structure PatchItem where
  file : String
  placement : RawPlacement
  patch : String
  comment : String
  deriving DecidableEq, Repr

/-- Modelled from the spec (§6): a parsed patch-set response — the patch
objects and the top-level summary string. -/
structure PatchSet where
  patches : List PatchItem
  comment : String
  deriving DecidableEq, Repr

/-- Numeric payload of an optional JSON value; none for anything that is not a
number. -/
def asNum : Option Json → Option Int
  | some (Json.num p) => some p
  | _ => none

/-- String payload of an optional JSON value; none for anything that is not a
string. -/
def asStr : Option Json → Option String
  | some (Json.str s) => some s
  | _ => none

/-- Array payload of an optional JSON value; none for anything that is not an
array. -/
def asArr : Option Json → Option (List Json)
  | some (Json.arr xs) => some xs
  | _ => none

/-- Modelled from the spec (§6, fixer prompts): parse the placement of one
patch object — either a numeric "position" field or numeric "start_line" and
"end_line" fields. -/
def parsePlacement (j : Json) : Option RawPlacement :=
  match asNum (jsonGet j "position") with
  | some p => some (RawPlacement.position p)
  | none =>
      match asNum (jsonGet j "start_line"), asNum (jsonGet j "end_line") with
      | some s, some e => some (RawPlacement.lineRange s e)
      | _, _ => none

/-- Modelled from the spec (§6, fixer prompts): parse one patch object — a
string "file" field, a placement, a "patch" string delimited by a literal
fenced-suggestion block, and a "comment" string. -/
def parsePatchItem (j : Json) : Option PatchItem :=
  match asStr (jsonGet j "file"), parsePlacement j, asStr (jsonGet j "patch"),
      asStr (jsonGet j "comment") with
  | some f, some pl, some pa, some co =>
      if fencedSuggestion pa then some ⟨f, pl, pa, co⟩ else none
  | _, _, _, _ => none

/-- Parse every element of a list of patch objects; none if any fails. -/
def parsePatchItems : List Json → Option (List PatchItem)
  | [] => some []
  | j :: js =>
      match parsePatchItem j, parsePatchItems js with
      | some it, some rest => some (it :: rest)
      | _, _ => none

/-- Modelled from the spec (§6, fixer prompts): parse a patch-set response — a
single JSON object with a "patches" array of patch objects and a top-level
"comment" summary string. -/
def parsePatchSet (j : Json) : Option PatchSet :=
  match asArr (jsonGet j "patches"), asStr (jsonGet j "comment") with
  | some xs, some co =>
      match parsePatchItems xs with
      | some its => some ⟨its, co⟩
      | none => none
  | _, _ => none

/-- Modelled from the spec (§6, §7c): the Fixing stage's handling of one
collaborator response — a parsed patch set, or a stage-level recoverable
error for any response not of the expected shape. -/
inductive FixResponseOutcome
  | parsed (ps : PatchSet)
  | recoverableError
  deriving DecidableEq, Repr

/-- Modelled from the spec (§6, §7c): any response that fails to parse under
the expected patch-set shape is treated as a stage-level recoverable error. -/
def handleFixResponse (j : Json) : FixResponseOutcome :=
  match parsePatchSet j with
  | some ps => FixResponseOutcome.parsed ps
  | none => FixResponseOutcome.recoverableError

/-- Shape of one patch object as the claim states it: a file path, a placement
that is a position or a start/end line pair, replacement text delimited by a
literal fenced-suggestion block, and a justification comment. -/
def PatchItemShape (j : Json) : Prop :=
  (∃ f, jsonGet j "file" = some (Json.str f)) ∧
  ((∃ p, jsonGet j "position" = some (Json.num p)) ∨
    (∃ s e, jsonGet j "start_line" = some (Json.num s) ∧
      jsonGet j "end_line" = some (Json.num e))) ∧
  (∃ pa, jsonGet j "patch" = some (Json.str pa) ∧ fencedSuggestion pa = true) ∧
  (∃ co, jsonGet j "comment" = some (Json.str co))

/-- Shape of a patch-set response as the claim states it: a single JSON object
carrying a "patches" array whose every element is a patch object, plus a
top-level summary string. -/
def PatchSetShape (j : Json) : Prop :=
  ∃ xs co, jsonGet j "patches" = some (Json.arr xs) ∧
    jsonGet j "comment" = some (Json.str co) ∧ ∀ x ∈ xs, PatchItemShape x

/-- Example well-shaped patch object of a patch-set response. -/
def exPatchJson : Json :=
  Json.obj
    [("file", Json.str "src/main.py"), ("start_line", Json.num 11),
     ("end_line", Json.num 12),
     ("patch", Json.str "```suggestion\n    safe code\n```"),
     ("comment", Json.str "parameterized query prevents injection")]

/-- Example well-shaped patch-set response. -/
def exPatchSetJson : Json :=
  Json.obj
    [("patches", Json.arr [exPatchJson]),
     ("comment", Json.str "1 vulnerability fixed")]

/-! ## Deployment (Deploy to Vertex workflow) -/

/-- Environment variables the Deploy to Vertex workflow passes to the deployed
agent with --set-env-vars, from the deployment step of the workflow file. The
two secret values are parameters. -/
def deployEnvVars (safetyApiKey vulnRagCorpus : String) : List (String × String) :=
  [("SAFETY_API_KEY", safetyApiKey),
   ("LLM_DEPLOYMENT", "gemini-2.5-flash"),
   ("GOOGLE_GENAI_USE_VERTEXAI", "True"),
   ("VULN_RAG_CORPUS", vulnRagCorpus)]

/-- Modelled from the spec: the retrieval-enabling flag, from the repository
guide's configuration section — USE_RAG toggles RAG functionality and RAG is
disabled when USE_RAG is unset in the environment. -/
def useRagFlag (env : List (String × String)) : Bool :=
  (env.lookup "USE_RAG").isSome

/-! ## Example fixtures

A concrete diff in the shape of the fixer prompt's worked example (§8
scenario): one file, one hunk, a context line, two removed lines and two added
lines, positions 1–5. -/

/-- Hunk of the SQL-injection example diff: old lines 10–12, new lines 10–12. -/
def exHunk : RawHunk :=
  ⟨10, 3, 10, 3,
    [(LineKind.context, "def get_user(user_id):"),
     (LineKind.removed, "    query = str concat of user_id"),
     (LineKind.removed, "    return db.execute(query)"),
     (LineKind.added, "    query = parameterized"),
     (LineKind.added, "    return db.execute(query, user_id)")]⟩

/-- Example raw diff of one file with one hunk. -/
def exDiff : RawDiff := [⟨"src/main.py", "src/main.py", [exHunk]⟩]

/-- CoordinateMap of the example diff: new lines 10, 11, 12 of src/main.py at
positions 1, 4, 5. -/
def exCM : CoordinateMap := (index exDiff).2

/-- The coordinate-assigned lines of the example hunk, positions 1–5. -/
def exLines : List DiffLine :=
  [⟨LineKind.context, "def get_user(user_id):", some 10, some 10, 1⟩,
   ⟨LineKind.removed, "    query = str concat of user_id", some 11, none, 2⟩,
   ⟨LineKind.removed, "    return db.execute(query)", some 12, none, 3⟩,
   ⟨LineKind.added, "    query = parameterized", none, some 11, 4⟩,
   ⟨LineKind.added, "    return db.execute(query, user_id)", none, some 12, 5⟩]

/-- The coordinate-assigned example hunk. -/
def exNHunk : Hunk := ⟨10, 3, 10, 3, exLines⟩

/-- The coordinate-assigned example file diff. -/
def exNFile : FileDiff := ⟨"src/main.py", "src/main.py", [exNHunk]⟩

/-- The last added line of the example hunk: new-file line 12 at position 5. -/
def exLine5 : DiffLine :=
  ⟨LineKind.added, "    return db.execute(query, user_id)", none, some 12, 5⟩

/-! ## DiffIndexer: coordinate assignment lemmas -/

theorem entryOfLine_path {path : String} {l : DiffLine} {e : CoordEntry}
    (h : entryOfLine path l = some e) : e.path = path := by
  cases hn : l.newLine with
  | none => simp [entryOfLine, hn] at h
  | some n =>
      simp only [entryOfLine, hn, Option.map_some'] at h
      obtain rfl := Option.some.inj h
      rfl

theorem entryOfLine_some {path : String} {l : DiffLine} {n : Nat}
    (h : l.newLine = some n) :
    entryOfLine path l = some ⟨path, n, l.position⟩ := by
  simp [entryOfLine, h]

theorem numberBody_entries_newLine (path : String)
    (b : List (LineKind × String)) :
    ∀ pos oldL newL : Nat,
      ((numberBody pos oldL newL b).filterMap (entryOfLine path)).map
          CoordEntry.newLine
        = List.range' newL (newCount b) := by
  induction b with
  | nil => intro pos oldL newL; rfl
  | cons hd rest ih =>
      intro pos oldL newL
      obtain ⟨k, t⟩ := hd
      cases k with
      | context =>
          simp only [numberBody, List.filterMap_cons, entryOfLine,
            Option.map_some', List.map_cons, newCount, ih]
          rw [List.range'_succ]
      | added =>
          simp only [numberBody, List.filterMap_cons, entryOfLine,
            Option.map_some', List.map_cons, newCount, ih]
          rw [List.range'_succ]
      | removed =>
          simp only [numberBody, List.filterMap_cons, entryOfLine,
            Option.map_none', newCount, ih]

theorem numberBody_entries_position (path : String)
    (b : List (LineKind × String)) :
    ∀ pos oldL newL : Nat,
      (((numberBody pos oldL newL b).filterMap (entryOfLine path)).map
          CoordEntry.position).Sublist
        (List.range' pos b.length) := by
  induction b with
  | nil => intro pos oldL newL; exact List.nil_sublist _
  | cons hd rest ih =>
      intro pos oldL newL
      obtain ⟨k, t⟩ := hd
      cases k with
      | context =>
          simp only [numberBody, List.filterMap_cons, entryOfLine,
            Option.map_some', List.map_cons, List.length_cons]
          rw [List.range'_succ]
          exact List.Sublist.cons₂ _ (ih (pos + 1) (oldL + 1) (newL + 1))
      | added =>
          simp only [numberBody, List.filterMap_cons, entryOfLine,
            Option.map_some', List.map_cons, List.length_cons]
          rw [List.range'_succ]
          exact List.Sublist.cons₂ _ (ih (pos + 1) oldL (newL + 1))
      | removed =>
          simp only [numberBody, List.filterMap_cons, entryOfLine,
            Option.map_none', List.length_cons]
          rw [List.range'_succ]
          exact List.Sublist.cons _ (ih (pos + 1) (oldL + 1) newL)

theorem numberHunks_snd (hs : List RawHunk) :
    ∀ pos : Nat, (numberHunks pos hs).2 = pos + bodyLenSum hs := by
  induction hs with
  | nil => intro pos; simp [numberHunks, bodyLenSum]
  | cons h rest ih =>
      intro pos
      simp only [numberHunks, bodyLenSum, ih]
      omega

theorem range'_append_one (s m n : Nat) :
    List.range' s m ++ List.range' (s + m) n = List.range' s (m + n) := by
  have h := List.range'_append s m n 1
  simp only [Nat.one_mul, Nat.add_comm n m] at h
  exact h

theorem numberHunks_entries_position (path : String) (hs : List RawHunk) :
    ∀ pos : Nat,
      (((numberHunks pos hs).1.flatMap (entriesOfHunk path)).map
          CoordEntry.position).Sublist
        (List.range' pos (bodyLenSum hs)) := by
  induction hs with
  | nil => intro pos; exact List.nil_sublist _
  | cons h rest ih =>
      intro pos
      simp only [numberHunks, List.flatMap_cons, List.map_append, bodyLenSum]
      rw [← range'_append_one pos h.body.length (bodyLenSum rest)]
      exact List.Sublist.append (numberBody_entries_position path h.body pos _ _)
        (ih (pos + h.body.length))

/-- Total body length of the raw files of a diff. -/
def diffLenSum : List RawFileDiff → Nat
  | [] => 0
  | f :: fs => bodyLenSum f.hunks + diffLenSum fs

theorem numberFiles_entries_position (fs : List RawFileDiff) :
    ∀ pos : Nat,
      (((numberFiles pos fs).flatMap entriesOfFile).map CoordEntry.position).Sublist
        (List.range' pos (diffLenSum fs)) := by
  induction fs with
  | nil => intro pos; exact List.nil_sublist _
  | cons f rest ih =>
      intro pos
      simp only [numberFiles, List.flatMap_cons, List.map_append, diffLenSum,
        entriesOfFile]
      rw [← range'_append_one pos (bodyLenSum f.hunks) (diffLenSum rest),
        numberHunks_snd]
      exact List.Sublist.append (numberHunks_entries_position f.path f.hunks pos)
        (ih (pos + bodyLenSum f.hunks))

theorem index_entries_position_pairwise (d : RawDiff) :
    ((index d).2.entries).Pairwise (fun a b => a.position < b.position) := by
  have hs : (((numberFiles 1 d).flatMap entriesOfFile).map
      CoordEntry.position).Pairwise (· < ·) :=
    List.Pairwise.sublist (numberFiles_entries_position d 1)
      (List.pairwise_lt_range' 1 _)
  exact List.pairwise_map.mp hs

theorem entriesOfHunk_path (path : String) (h : Hunk) :
    ∀ e ∈ entriesOfHunk path h, e.path = path := by
  intro e he
  obtain ⟨l, _, hl⟩ := List.mem_filterMap.mp he
  exact entryOfLine_path hl

theorem validHunksFrom_cons {lo : Nat} {h : RawHunk} {hs : List RawHunk}
    (hv : validHunksFrom lo (h :: hs) = true) :
    (newCount h.body = 0 ∨ lo ≤ h.newStart) ∧
      validHunksFrom (max lo (h.newStart + newCount h.body)) hs = true := by
  simp only [validHunksFrom, Bool.and_eq_true, Bool.or_eq_true,
    decide_eq_true_eq] at hv
  exact ⟨hv.1.1.1, hv.2⟩

theorem numberHunks_entries_newLine (path : String) (hs : List RawHunk) :
    ∀ lo pos : Nat, validHunksFrom lo hs = true →
      ((numberHunks pos hs).1.flatMap (entriesOfHunk path)).Pairwise
          (fun a b => a.newLine < b.newLine) ∧
        ∀ e ∈ (numberHunks pos hs).1.flatMap (entriesOfHunk path), lo ≤ e.newLine := by
  induction hs with
  | nil =>
      intro lo pos _
      refine ⟨List.Pairwise.nil, ?_⟩
      intro e he
      simp [numberHunks] at he
  | cons h rest ih =>
      intro lo pos hv
      obtain ⟨hlo, hrest⟩ := validHunksFrom_cons hv
      have ihr := ih (max lo (h.newStart + newCount h.body)) (pos + h.body.length)
        hrest
      have hmap :
          (entriesOfHunk path
              ⟨h.oldStart, h.oldLen, h.newStart, h.newLen,
                numberBody pos h.oldStart h.newStart h.body⟩).map
            CoordEntry.newLine = List.range' h.newStart (newCount h.body) :=
        numberBody_entries_newLine path h.body pos h.oldStart h.newStart
  -- membership of a head entry's newLine in its range
      have hbound : ∀ e ∈ entriesOfHunk path
          ⟨h.oldStart, h.oldLen, h.newStart, h.newLen,
            numberBody pos h.oldStart h.newStart h.body⟩,
          h.newStart ≤ e.newLine ∧ e.newLine < h.newStart + newCount h.body := by
        intro e he
        have : e.newLine ∈ List.range' h.newStart (newCount h.body) := by
          rw [← hmap]
          exact List.mem_map.mpr ⟨e, he, rfl⟩
        exact List.mem_range'_1.mp this
      have hne : ∀ e ∈ entriesOfHunk path
          ⟨h.oldStart, h.oldLen, h.newStart, h.newLen,
            numberBody pos h.oldStart h.newStart h.body⟩, lo ≤ e.newLine := by
        intro e he
        rcases hlo with h0 | hle
        · have h1 := (hbound e he).1
          have h2 := (hbound e he).2
          omega
        · exact le_trans hle (hbound e he).1
      simp only [numberHunks, List.flatMap_cons]
      rw [List.pairwise_append]
      refine ⟨⟨?_, ihr.1, ?_⟩, ?_⟩
      · have : ((entriesOfHunk path
            ⟨h.oldStart, h.oldLen, h.newStart, h.newLen,
              numberBody pos h.oldStart h.newStart h.body⟩).map
            CoordEntry.newLine).Pairwise (· < ·) := by
          rw [hmap]; exact List.pairwise_lt_range' _ _
        exact List.pairwise_map.mp this
      · intro a ha b hb
        have h1 := (hbound a ha).2
        have h2 := le_trans (le_max_right lo _) (ihr.2 b hb)
        omega
      · intro e he
        rcases List.mem_append.mp he with hhd | htl
        · exact hne e hhd
        · exact le_trans (le_max_left lo _) (ihr.2 e htl)

theorem numberFiles_entries_path (fs : List RawFileDiff) :
    ∀ pos : Nat, ∀ e ∈ (numberFiles pos fs).flatMap entriesOfFile,
      e.path ∈ fs.map RawFileDiff.path := by
  induction fs with
  | nil => intro pos e he; simp [numberFiles] at he
  | cons f rest ih =>
      intro pos e he
      simp only [numberFiles, List.flatMap_cons] at he
      rcases List.mem_append.mp he with hhd | htl
      · obtain ⟨hk, _, hmem⟩ := List.mem_flatMap.mp hhd
        have := entriesOfHunk_path f.path hk e hmem
        simp [this]
      · simp only [List.map_cons, List.mem_cons]
        exact Or.inr (ih _ e htl)

theorem numberFiles_entries_key (fs : List RawFileDiff) :
    ∀ pos : Nat, (fs.map RawFileDiff.path).Nodup →
      (∀ f ∈ fs, validHunksFrom 1 f.hunks = true) →
      ((numberFiles pos fs).flatMap entriesOfFile).Pairwise
        (fun a b => a.path ≠ b.path ∨ a.newLine ≠ b.newLine) := by
  induction fs with
  | nil => intro pos _ _; simp [numberFiles]
  | cons f rest ih =>
      intro pos hnd hv
      have hndc := List.nodup_cons.mp hnd
      simp only [numberFiles, List.flatMap_cons]
      rw [List.pairwise_append]
      refine ⟨?_, ih _ hndc.2 (fun g hg => hv g (List.mem_cons.mpr (Or.inr hg))), ?_⟩
      · have hhd := (numberHunks_entries_newLine f.path f.hunks 1 pos
          (hv f (List.mem_cons.mpr (Or.inl rfl)))).1
        exact hhd.imp (fun hab => Or.inr (Nat.ne_of_lt hab))
      · intro a ha b hb
        obtain ⟨hk, _, hmem⟩ := List.mem_flatMap.mp ha
        have hap : a.path = f.path := entriesOfHunk_path f.path hk a hmem
        have hbp := numberFiles_entries_path rest _ b hb
        refine Or.inl ?_
        rw [hap]
        intro hcontra
        exact hndc.1 (hcontra ▸ hbp)

theorem find_key_self {α κ : Type} [BEq κ] [LawfulBEq κ] (keyf : α → κ) :
    ∀ l : List α, l.Pairwise (fun a b => keyf a ≠ keyf b) → ∀ e ∈ l,
      l.find? (fun x => keyf x == keyf e) = some e := by
  intro l
  induction l with
  | nil => intro _ e he; exact absurd he (List.not_mem_nil e)
  | cons a l ih =>
      intro hp e he
      obtain ⟨ha, hl⟩ := List.pairwise_cons.mp hp
      by_cases hae : keyf a = keyf e
      · have hea : e = a := by
          rcases List.mem_cons.mp he with h | h
          · exact h
          · exact absurd hae (ha e h)
        subst hea
        simp [List.find?_cons, hae]
      · have hel : e ∈ l := by
          rcases List.mem_cons.mp he with h | h
          · exact absurd (by rw [h]) hae
          · exact h
        have hfa : (keyf a == keyf e) = false := by
          simp [hae]
        rw [List.find?_cons, hfa]
        exact ih hl e hel

/-- C2: for every valid unified diff, `index` is a pure function producing a
Diff and CoordinateMap such that re-deriving the (file, new-file line number)
pair of each line from its assigned position via the CoordinateMap round-trips
to the original pair: the position-to-line mapping inverts the line-to-position
mapping on every line of the indexed diff. -/
theorem index_coordinate_roundtrip (d : RawDiff) (hv : ValidDiff d) :
    ∀ f ∈ (index d).1, ∀ h ∈ f.hunks, ∀ l ∈ h.lines, ∀ n : Nat,
      l.newLine = some n →
      lineToPos (index d).2 f.path n = some l.position ∧
      posToLine (index d).2 l.position = some (f.path, n) := by
  intro f hf h hh l hl n hn
  have hmem : (⟨f.path, n, l.position⟩ : CoordEntry) ∈ (index d).2.entries := by
    show (⟨f.path, n, l.position⟩ : CoordEntry) ∈
      (numberFiles 1 d).flatMap entriesOfFile
    refine List.mem_flatMap.mpr ⟨f, hf, ?_⟩
    refine List.mem_flatMap.mpr ⟨h, hh, ?_⟩
    exact List.mem_filterMap.mpr ⟨l, hl, entryOfLine_some hn⟩
  constructor
  · have hkey : ((index d).2.entries).Pairwise
        (fun a b => (a.path, a.newLine) ≠ (b.path, b.newLine)) := by
      refine (numberFiles_entries_key d 1 hv.1 hv.2).imp ?_
      intro a b hab hc
      rcases hab with hne | hne
      · exact hne (congrArg Prod.fst hc)
      · exact hne (congrArg Prod.snd hc)
    have hfind := find_key_self (fun x : CoordEntry => (x.path, x.newLine))
      (index d).2.entries hkey ⟨f.path, n, l.position⟩ hmem
    beta_reduce at hfind
    show ((index d).2.entries.find?
        (fun x => (x.path, x.newLine) ==
          ((⟨f.path, n, l.position⟩ : CoordEntry).path,
            (⟨f.path, n, l.position⟩ : CoordEntry).newLine))).map
        (fun x => x.position) = some l.position
    rw [hfind]
    rfl
  · have hkey : ((index d).2.entries).Pairwise
        (fun a b => a.position ≠ b.position) :=
      (index_entries_position_pairwise d).imp (fun hab => Nat.ne_of_lt hab)
    have hfind := find_key_self (fun x : CoordEntry => x.position)
      (index d).2.entries hkey ⟨f.path, n, l.position⟩ hmem
    beta_reduce at hfind
    show ((index d).2.entries.find?
        (fun x => x.position ==
          (⟨f.path, n, l.position⟩ : CoordEntry).position)).map
        (fun x => (x.path, x.newLine)) = some (f.path, n)
    rw [hfind]
    rfl

/-- Witness for C2: on the concrete example diff, the last added line (new-file
line 12 of src/main.py, position 5) round-trips through the CoordinateMap in
both directions. -/
theorem index_coordinate_roundtrip_witness :
    ValidDiff exDiff ∧
      lineToPos (index exDiff).2 exNFile.path 12 = some 5 ∧
      posToLine (index exDiff).2 5 = some (exNFile.path, 12) := by
  have h := index_coordinate_roundtrip exDiff (by decide) exNFile (by decide)
    exNHunk (by decide) exLine5 (by decide) 12 rfl
  exact ⟨by decide, h.1, h.2⟩

/-! ## PatchValidator theorems -/

/-- Counterexample for C1 as stated: a Patch naming a file absent from the
diff has no CoordinateMap entry for any line of its range, yet validate
rejects it with UnknownFileError (rule 1 fires before rule 2), not with
OutOfDiffRangeError. -/
theorem validate_unknown_file_counterexample :
    lineToPos exCM "absent.py" 10 = none ∧
      validate CoordMode.lineBased exCM ⟨"absent.py", 10, 10, "fix", "ok"⟩ =
        Except.error StructuralError.UnknownFileError ∧
      StructuralError.UnknownFileError ≠ StructuralError.OutOfDiffRangeError :=
  ⟨rfl, rfl, by decide⟩

/-- C1 (amended to files present in the diff): for every proposed Patch on a
file of the diff whose requested range includes a line with no CoordinateMap
entry (a removed-only line or a line outside any hunk), validate rejects it
with OutOfDiffRangeError; and validate accepts a Patch only when every
new-file line number of its range has a CoordinateMap entry for that file
(maps to an added or context DiffLine). -/
theorem validate_out_of_diff_range (mode : CoordMode) (cm : CoordinateMap)
    (p : Patch) :
    (fileKnown cm p.file = true →
        (∃ ln ∈ rangeLines p.startLine p.endLine, lineToPos cm p.file ln = none) →
        validate mode cm p = Except.error StructuralError.OutOfDiffRangeError) ∧
      (∀ v, validate mode cm p = Except.ok v →
        ∀ ln ∈ rangeLines p.startLine p.endLine,
          (lineToPos cm p.file ln).isSome = true) := by
  constructor
  · intro hfk hbad
    obtain ⟨ln, hmem, hnone⟩ := hbad
    have hall : (rangeLines p.startLine p.endLine).all
        (fun ln => (lineToPos cm p.file ln).isSome) = false := by
      rcases hq : (rangeLines p.startLine p.endLine).all
          (fun ln => (lineToPos cm p.file ln).isSome) with _ | _
      · rfl
      · have := List.all_eq_true.mp hq ln hmem
        rw [hnone] at this
        simp at this
    simp [validate, hfk, hall]
  · intro v hok ln hmem
    by_cases hfk : fileKnown cm p.file = false
    · simp [validate, hfk] at hok
    · rcases hall : (rangeLines p.startLine p.endLine).all
          (fun ln => (lineToPos cm p.file ln).isSome) with _ | _
      · simp [validate, hfk, hall] at hok
      · exact List.all_eq_true.mp hall ln hmem

/-- Witness for C1: on the example diff, line 13 of src/main.py is outside the
hunk, so the patch for lines 11–13 is rejected with OutOfDiffRangeError. -/
theorem validate_out_of_diff_range_witness :
    fileKnown exCM "src/main.py" = true ∧
      lineToPos exCM "src/main.py" 13 = none ∧
      validate CoordMode.lineBased exCM ⟨"src/main.py", 11, 13, "fix", "ok"⟩ =
        Except.error StructuralError.OutOfDiffRangeError :=
  ⟨rfl, rfl,
    (validate_out_of_diff_range CoordMode.lineBased exCM
        ⟨"src/main.py", 11, 13, "fix", "ok"⟩).1 rfl ⟨13, by decide, rfl⟩⟩

/-- C3: for every Patch accepted by validate in the position-based coordinate
system, the emitted placement is the single position of the last line of the
requested range (the position the end line maps to, not the start line's). -/
theorem validate_position_last_line (cm : CoordinateMap) (p : Patch)
    (v : ValidatedPatch)
    (h : validate CoordMode.positionBased cm p = Except.ok v) :
    ∃ q, lineToPos cm p.file p.endLine = some q ∧
      v.placement = Placement.position q := by
  by_cases hfk : fileKnown cm p.file = false
  · simp [validate, hfk] at h
  · rcases hall : (rangeLines p.startLine p.endLine).all
        (fun ln => (lineToPos cm p.file ln).isSome) with _ | _
    · simp [validate, hfk, hall] at h
    · rcases hend : lineToPos cm p.file p.endLine with _ | q
      · simp [validate, hfk, hall, hend] at h
      · rcases huns : unsafeReplacement p.replacement with _ | _
        · refine ⟨q, rfl, ?_⟩
          simp only [validate, hfk, if_false, hall, hend, huns] at h
          simp at h
          rw [← h]
        · simp [validate, hfk, hall, hend, huns] at h

/-- Witness for C3: on the example diff, the multi-line patch for lines 10–12
is anchored at position 5, the position of line 12, the last line of the
range — not at position 1, the position of the first line. -/
theorem validate_position_last_line_witness :
    (∃ q, lineToPos exCM "src/main.py" 12 = some q ∧
        (⟨"src/main.py", Placement.position 5, "fix", "ok"⟩ :
          ValidatedPatch).placement = Placement.position q) ∧
      lineToPos exCM "src/main.py" 12 = some 5 ∧
      lineToPos exCM "src/main.py" 10 = some 1 :=
  ⟨validate_position_last_line exCM ⟨"src/main.py", 10, 12, "fix", "ok"⟩
      ⟨"src/main.py", Placement.position 5, "fix", "ok"⟩ rfl,
    rfl, rfl⟩

/-! ## ReviewPipeline theorems -/

theorem searchingStep_init_cases (cfg : Config) (c : Collab) :
    ∃ k w t, searchingStep cfg c initRun =
        ⟨RunStatus.running, k, [], [], [], [], w, t⟩ ∧
      (t = [] ∨ t = [Stage.searching]) ∧
      (t = [] ↔ cfg.useRag = false) := by
  by_cases hur : cfg.useRag = false
  · refine ⟨none, [], [], ?_, Or.inl rfl, by simp [hur]⟩
    simp [searchingStep, initRun, hur]
  · cases hs : c.searchResult with
    | some s =>
        refine ⟨some s, [], [Stage.searching], ?_, Or.inr rfl, by simp [hur]⟩
        simp [searchingStep, initRun, hur, hs, initRun]
    | none =>
        refine ⟨none, ["knowledge retrieval failed"], [Stage.searching], ?_,
          Or.inr rfl, by simp [hur]⟩
        simp [searchingStep, initRun, hur, hs, initRun]

/-- Shape of the trace and final patches of any run: an optional searching
step, always one analyzing step, an optional fixing step and an optional
testing step, in that order; searching appears exactly when the retrieval flag
is set, and testing only when the final patch set is nonempty. -/
theorem runPipeline_trace_shape (cfg : Config) (cm : CoordinateMap) (c : Collab) :
    ∃ s f t, (runPipeline cfg cm c).trace = s ++ [Stage.analyzing] ++ f ++ t ∧
      (s = [] ∨ s = [Stage.searching]) ∧
      (f = [] ∨ f = [Stage.fixing]) ∧
      (t = [] ∨ t = [Stage.testing]) ∧
      (s = [] ↔ cfg.useRag = false) ∧
      (t ≠ [] → (runPipeline cfg cm c).patches ≠ []) := by
  obtain ⟨k, w, tr, hr1, htr, hiff⟩ := searchingStep_init_cases cfg c
  have hor : cfg.useRag = false ∨ tr = [Stage.searching] := by
    rcases htr with rfl | rfl
    · exact Or.inl (hiff.mp rfl)
    · exact Or.inr rfl
  simp only [runPipeline, hr1]
  cases ha : c.analyzeResult with
  | none =>
      refine ⟨tr, [], [], ?_⟩
      simp [analyzingStep, fixingStep, testingStep, finishRun, ha, hiff]
      exact hor
  | some fs =>
      by_cases hflt : fs.filter (fun f => (checkFinding cm f).isNone) = []
      · refine ⟨tr, [], [], ?_⟩
        simp [analyzingStep, fixingStep, testingStep, finishRun, ha, hflt, hiff]
        exact hor
      · cases hfx : c.fixResult with
        | none =>
            refine ⟨tr, [Stage.fixing], [], ?_⟩
            simp [analyzingStep, fixingStep, testingStep, finishRun, ha, hflt,
              hfx, hiff]
            exact hor
        | some ps =>
            by_cases hP : ps.filterMap (fun p => (validate cfg.mode cm p).toOption) = []
            · refine ⟨tr, [Stage.fixing], [], ?_⟩
              simp [analyzingStep, fixingStep, testingStep, finishRun, ha, hflt,
                hfx, hP, hiff]
              exact hor
            · cases htst : c.testResult with
              | none =>
                  refine ⟨tr, [Stage.fixing], [Stage.testing], ?_⟩
                  simp [analyzingStep, fixingStep, testingStep, finishRun, ha,
                    hflt, hfx, hP, htst, hiff]
                  exact hor
              | some ts =>
                  refine ⟨tr, [Stage.fixing], [Stage.testing], ?_⟩
                  simp [analyzingStep, fixingStep, testingStep, finishRun, ha,
                    hflt, hfx, hP, htst, hiff]
                  exact hor

/-- C5: in every pipeline run, the stages execute strictly sequentially in the
fixed order Searching (optional), Analyzing, Fixing, Testing: the trace of
invoked stages is a sublist of that canonical order, so no run invokes them in
any other order or more than once. -/
theorem pipeline_stage_order (cfg : Config) (cm : CoordinateMap) (c : Collab) :
    (runPipeline cfg cm c).trace.Sublist
      [Stage.searching, Stage.analyzing, Stage.fixing, Stage.testing] := by
  obtain ⟨s, f, t, htr, hs, hf, ht, _, _⟩ := runPipeline_trace_shape cfg cm c
  rw [htr]
  rcases hs with rfl | rfl <;> rcases hf with rfl | rfl <;>
    rcases ht with rfl | rfl <;> decide

/-- C4: if the Analyzing stage yields zero findings, the Fixing and Testing
stages are not invoked and the run reaches Done with empty patch and test
sets; moreover Testing is invoked only when Fixing produced at least one
accepted patch. -/
theorem pipeline_zero_findings (cfg : Config) (cm : CoordinateMap) (c : Collab) :
    (∀ fs, c.analyzeResult = some fs →
        fs.filter (fun f => (checkFinding cm f).isNone) = [] →
        Stage.fixing ∉ (runPipeline cfg cm c).trace ∧
          Stage.testing ∉ (runPipeline cfg cm c).trace ∧
          (runPipeline cfg cm c).status = RunStatus.done ∧
          (runPipeline cfg cm c).patches = [] ∧
          (runPipeline cfg cm c).tests = []) ∧
      (Stage.testing ∈ (runPipeline cfg cm c).trace →
        (runPipeline cfg cm c).patches ≠ []) := by
  constructor
  · intro fs ha hflt
    obtain ⟨k, w, tr, hr1, htr, _⟩ := searchingStep_init_cases cfg c
    simp only [runPipeline, hr1]
    rcases htr with rfl | rfl <;>
      simp [analyzingStep, fixingStep, testingStep, finishRun, ha, hflt]
  · intro hmem
    obtain ⟨s, f, t, htr, hs, hf, ht, _, hpat⟩ := runPipeline_trace_shape cfg cm c
    rcases ht with rfl | rfl
    · rw [htr] at hmem
      rcases hs with rfl | rfl <;> rcases hf with rfl | rfl <;> simp at hmem
    · exact hpat (by simp)

/-- Witness for C4: a run whose analysis yields zero findings skips Fixing and
Testing and ends Done with empty patch and test sets. -/
theorem pipeline_zero_findings_witness :
    Stage.fixing ∉ (runPipeline ⟨false, CoordMode.lineBased⟩ exCM
        ⟨none, some [], none, none⟩).trace ∧
      Stage.testing ∉ (runPipeline ⟨false, CoordMode.lineBased⟩ exCM
        ⟨none, some [], none, none⟩).trace ∧
      (runPipeline ⟨false, CoordMode.lineBased⟩ exCM
        ⟨none, some [], none, none⟩).status = RunStatus.done ∧
      (runPipeline ⟨false, CoordMode.lineBased⟩ exCM
        ⟨none, some [], none, none⟩).patches = [] ∧
      (runPipeline ⟨false, CoordMode.lineBased⟩ exCM
        ⟨none, some [], none, none⟩).tests = [] :=
  (pipeline_zero_findings ⟨false, CoordMode.lineBased⟩ exCM
      ⟨none, some [], none, none⟩).1 [] rfl rfl

theorem analyzingStep_warnings (cm : CoordinateMap) (c : Collab) (r : Run) :
    (analyzingStep cm c r).warnings = r.warnings := by
  obtain ⟨st, k, fnd, pat, tst, rej, wrn, tr⟩ := r
  cases st <;> cases hres : c.analyzeResult <;> simp [analyzingStep, hres]

theorem fixingStep_warnings (mode : CoordMode) (cm : CoordinateMap) (c : Collab)
    (r : Run) : (fixingStep mode cm c r).warnings = r.warnings := by
  obtain ⟨st, k, fnd, pat, tst, rej, wrn, tr⟩ := r
  cases st <;> cases hres : c.fixResult <;> by_cases hfnd : fnd = [] <;>
    simp [fixingStep, hres, hfnd]

theorem testingStep_warnings (c : Collab) (r : Run) :
    (testingStep c r).warnings = r.warnings := by
  obtain ⟨st, k, fnd, pat, tst, rej, wrn, tr⟩ := r
  cases st <;> cases hres : c.testResult <;> by_cases hpat : pat = [] <;>
    simp [testingStep, hres, hpat]

theorem finishRun_warnings (r : Run) : (finishRun r).warnings = r.warnings := by
  obtain ⟨st, k, fnd, pat, tst, rej, wrn, tr⟩ := r
  cases st <;> simp [finishRun]

set_option linter.unusedVariables false in
/-- C6: if the knowledge-retrieval stage is disabled by configuration or its
collaborator call fails, the run still transitions to Analyzing; a retrieval
failure is recorded as a warning but is not fatal; and the run can still reach
Done. -/
theorem pipeline_retrieval_best_effort (cfg : Config) (cm : CoordinateMap)
    (c : Collab) (h : cfg.useRag = false ∨ c.searchResult = none) :
    Stage.analyzing ∈ (runPipeline cfg cm c).trace ∧
      (cfg.useRag = true → c.searchResult = none →
        "knowledge retrieval failed" ∈ (runPipeline cfg cm c).warnings) ∧
      ∃ c2 : Collab, c2.searchResult = c.searchResult ∧
        (runPipeline cfg cm c2).status = RunStatus.done := by
  refine ⟨?_, ?_, ?_⟩
  · obtain ⟨s, f, t, htr, _, _, _, _, _⟩ := runPipeline_trace_shape cfg cm c
    rw [htr]
    simp
  · intro hur hsr
    have hr1 : searchingStep cfg c initRun =
        ⟨RunStatus.running, none, [], [], [], [],
          ["knowledge retrieval failed"], [Stage.searching]⟩ := by
      simp [searchingStep, initRun, hur, hsr]
    simp only [runPipeline, hr1, finishRun_warnings, testingStep_warnings,
      fixingStep_warnings, analyzingStep_warnings]
    simp
  · refine ⟨⟨c.searchResult, some [], none, none⟩, rfl, ?_⟩
    obtain ⟨k2, w2, t2, hr2, _, _⟩ :=
      searchingStep_init_cases cfg ⟨c.searchResult, some [], none, none⟩
    simp only [runPipeline, hr2]
    simp [analyzingStep, fixingStep, testingStep, finishRun]

/-- Witness for C6: with retrieval enabled and the collaborator failing, the
run still invokes Analyzing, records the failure as a warning, and a run with
the same (failed) retrieval outcome reaches Done. -/
theorem pipeline_retrieval_best_effort_witness :
    Stage.analyzing ∈ (runPipeline ⟨true, CoordMode.lineBased⟩ exCM
        ⟨none, some [], none, none⟩).trace ∧
      (true = true → (none : Option String) = none →
        "knowledge retrieval failed" ∈ (runPipeline ⟨true, CoordMode.lineBased⟩
          exCM ⟨none, some [], none, none⟩).warnings) ∧
      ∃ c2 : Collab, c2.searchResult = none ∧
        (runPipeline ⟨true, CoordMode.lineBased⟩ exCM c2).status =
          RunStatus.done :=
  pipeline_retrieval_best_effort ⟨true, CoordMode.lineBased⟩ exCM
    ⟨none, some [], none, none⟩ (Or.inr rfl)

theorem except_toOption_some {ε α : Type} {x : Except ε α} {a : α}
    (h : x.toOption = some a) : x = Except.ok a := by
  cases x with
  | error e => simp [Except.toOption] at h
  | ok b =>
      simp [Except.toOption] at h
      rw [h]

/-- C7: with the collaborator calls succeeding at the protocol level,
structural rejections are fatal only to the affected item — the run always
reaches Done; when findings survive, the accepted patches are exactly those
that validate and every rejected finding or patch is recorded; and when every
proposed patch is rejected the Fixing stage still completes with an empty
patch set. -/
theorem pipeline_structural_rejections (cfg : Config) (cm : CoordinateMap)
    (c : Collab) (fs : List Finding) (ps : List Patch) (ts : List String)
    (ha : c.analyzeResult = some fs) (hfx : c.fixResult = some ps)
    (htst : c.testResult = some ts) :
    (runPipeline cfg cm c).status = RunStatus.done ∧
      (fs.filter (fun f => (checkFinding cm f).isNone) ≠ [] →
        (runPipeline cfg cm c).patches =
            ps.filterMap (fun p => (validate cfg.mode cm p).toOption) ∧
          (runPipeline cfg cm c).rejections =
            fs.filterMap (fun f => (checkFinding cm f).map
                (RejectedItem.finding f)) ++
              ps.filterMap (fun p =>
                match validate cfg.mode cm p with
                | Except.error e => some (RejectedItem.patch p e)
                | Except.ok _ => none)) ∧
      ((∀ p ∈ ps, ∃ e, validate cfg.mode cm p = Except.error e) →
        (runPipeline cfg cm c).patches = []) := by
  obtain ⟨k, w, tr, hr1, htr, _⟩ := searchingStep_init_cases cfg c
  simp only [runPipeline, hr1]
  by_cases hflt : fs.filter (fun f => (checkFinding cm f).isNone) = []
  · refine ⟨?_, fun hne => absurd hflt hne, ?_⟩ <;>
      simp [analyzingStep, fixingStep, testingStep, finishRun, ha, hflt]
  · by_cases hP : ps.filterMap (fun p => (validate cfg.mode cm p).toOption) = []
    · refine ⟨?_, fun _ => ⟨?_, ?_⟩, fun _ => ?_⟩ <;>
        simp [analyzingStep, fixingStep, testingStep, finishRun, ha, hflt, hfx,
          hP]
    · refine ⟨?_, fun _ => ⟨?_, ?_⟩, fun hall => ?_⟩
      · simp [analyzingStep, fixingStep, testingStep, finishRun, ha, hflt, hfx,
          hP, htst]
      · simp [analyzingStep, fixingStep, testingStep, finishRun, ha, hflt, hfx,
          hP, htst]
      · simp [analyzingStep, fixingStep, testingStep, finishRun, ha, hflt, hfx,
          hP, htst]
      · exfalso
        apply hP
        rw [List.filterMap_eq_nil_iff]
        intro p hp
        obtain ⟨e, he⟩ := hall p hp
        rw [he]
        rfl

/-- Witness for C7: a run whose single finding is valid but whose single
proposed patch is rejected (its replacement embeds the suggestion fence) still
reaches Done with an empty patch set, the rejection recorded. -/
theorem pipeline_structural_rejections_witness :
    (runPipeline ⟨false, CoordMode.lineBased⟩ exCM
        ⟨none, some [⟨"src/main.py", 10, 10, "sqli"⟩],
          some [⟨"src/main.py", 10, 10, "```suggestion bad", "j"⟩],
          some []⟩).status = RunStatus.done ∧
      (runPipeline ⟨false, CoordMode.lineBased⟩ exCM
        ⟨none, some [⟨"src/main.py", 10, 10, "sqli"⟩],
          some [⟨"src/main.py", 10, 10, "```suggestion bad", "j"⟩],
          some []⟩).patches = [] := by
  have h := pipeline_structural_rejections ⟨false, CoordMode.lineBased⟩ exCM
    ⟨none, some [⟨"src/main.py", 10, 10, "sqli"⟩],
      some [⟨"src/main.py", 10, 10, "```suggestion bad", "j"⟩], some []⟩
    [⟨"src/main.py", 10, 10, "sqli"⟩]
    [⟨"src/main.py", 10, 10, "```suggestion bad", "j"⟩] [] rfl rfl rfl
  refine ⟨h.1, h.2.2 ?_⟩
  intro p hp
  rw [List.mem_singleton.mp hp]
  exact ⟨StructuralError.UnsafePatchContentError, rfl⟩

theorem testingStep_patches (c : Collab) (r : Run) :
    (testingStep c r).patches = r.patches := by
  obtain ⟨st, k, fnd, pat, tst, rej, wrn, tr⟩ := r
  cases st <;> cases hres : c.testResult <;> by_cases hpat : pat = [] <;>
    simp [testingStep, hres, hpat]

theorem finishRun_patches (r : Run) : (finishRun r).patches = r.patches := by
  obtain ⟨st, k, fnd, pat, tst, rej, wrn, tr⟩ := r
  cases st <;> simp [finishRun]

theorem validate_mode_of_ok {mode : CoordMode} {cm : CoordinateMap} {p : Patch}
    {v : ValidatedPatch} (h : validate mode cm p = Except.ok v) :
    placementMode v.placement = mode := by
  by_cases hfk : fileKnown cm p.file = false
  · simp [validate, hfk] at h
  · rcases hall : (rangeLines p.startLine p.endLine).all
        (fun ln => (lineToPos cm p.file ln).isSome) with _ | _
    · simp [validate, hfk, hall] at h
    · cases mode with
      | positionBased =>
          rcases hend : lineToPos cm p.file p.endLine with _ | q
          · simp [validate, hfk, hall, hend] at h
          · rcases huns : unsafeReplacement p.replacement with _ | _
            · simp only [validate, hfk, if_false, hall, hend, huns] at h
              simp at h
              rw [← h]
              rfl
            · simp [validate, hfk, hall, hend, huns] at h
      | lineBased =>
          by_cases hinv : p.endLine < p.startLine
          · simp [validate, hfk, hall, hinv] at h
          · rcases huns : unsafeReplacement p.replacement with _ | _
            · simp only [validate, hfk, if_false, hall, hinv, if_neg, huns] at h
              simp at h
              rw [← h]
              rfl
            · simp [validate, hfk, hall, hinv, huns] at h

/-- C9: both placement formats are supported output modes, selectable through
one configuration switch fixed for the whole run (the deployment): every patch
a run emits carries a placement in the run's single configured coordinate
mode, and each of the two modes is realizable by a validated patch. -/
theorem placement_single_switch (cfg : Config) (cm : CoordinateMap)
    (c : Collab) :
    (∀ v ∈ (runPipeline cfg cm c).patches,
        placementMode v.placement = cfg.mode) ∧
      (∃ cmp pp vp, validate CoordMode.positionBased cmp pp = Except.ok vp ∧
        placementMode vp.placement = CoordMode.positionBased) ∧
      (∃ cml pl vl, validate CoordMode.lineBased cml pl = Except.ok vl ∧
        placementMode vl.placement = CoordMode.lineBased) := by
  refine ⟨?_, ?_, ?_⟩
  · obtain ⟨k, w, tr, hr1, _, _⟩ := searchingStep_init_cases cfg c
    simp only [runPipeline, hr1, finishRun_patches, testingStep_patches]
    cases ha : c.analyzeResult with
    | none => simp [analyzingStep, fixingStep, ha]
    | some fs =>
        by_cases hflt : fs.filter (fun f => (checkFinding cm f).isNone) = []
        · simp [analyzingStep, fixingStep, ha, hflt]
        · cases hfx : c.fixResult with
          | none => simp [analyzingStep, fixingStep, ha, hflt, hfx]
          | some ps =>
              simp only [analyzingStep, fixingStep, ha, hflt, hfx]
              simp [hflt]
              intro v p hp hpv
              exact validate_mode_of_ok (except_toOption_some hpv)
  · exact ⟨exCM, ⟨"src/main.py", 10, 12, "fix", "ok"⟩,
      ⟨"src/main.py", Placement.position 5, "fix", "ok"⟩, rfl, rfl⟩
  · exact ⟨exCM, ⟨"src/main.py", 10, 12, "fix", "ok"⟩,
      ⟨"src/main.py", Placement.lineRange 10 12, "fix", "ok"⟩, rfl, rfl⟩

/-- Witness for C9: a concrete position-mode run emits only position
placements, and each mode is realized by a concrete validated patch. -/
theorem placement_single_switch_witness :
    (∀ v ∈ (runPipeline ⟨false, CoordMode.positionBased⟩ exCM
        ⟨none, some [⟨"src/main.py", 10, 10, "sqli"⟩],
          some [⟨"src/main.py", 10, 12, "fix", "ok"⟩], some []⟩).patches,
      placementMode v.placement = CoordMode.positionBased) ∧
      (∃ cmp pp vp, validate CoordMode.positionBased cmp pp = Except.ok vp ∧
        placementMode vp.placement = CoordMode.positionBased) ∧
      (∃ cml pl vl, validate CoordMode.lineBased cml pl = Except.ok vl ∧
        placementMode vl.placement = CoordMode.lineBased) :=
  placement_single_switch ⟨false, CoordMode.positionBased⟩ exCM
    ⟨none, some [⟨"src/main.py", 10, 10, "sqli"⟩],
      some [⟨"src/main.py", 10, 12, "fix", "ok"⟩], some []⟩

/-- C10: the Deploy to Vertex workflow's environment variables never include
USE_RAG, so in every cloud deployment the retrieval-enabling flag is unset and
every deployed run skips the knowledge-retrieval (Search) stage and goes
directly to analysis. -/
theorem deploy_env_skips_search (key corp : String) (mode : CoordMode)
    (cm : CoordinateMap) (c : Collab) :
    (deployEnvVars key corp).lookup "USE_RAG" = none ∧
      useRagFlag (deployEnvVars key corp) = false ∧
      Stage.searching ∉
        (runPipeline ⟨useRagFlag (deployEnvVars key corp), mode⟩ cm c).trace ∧
      Stage.analyzing ∈
        (runPipeline ⟨useRagFlag (deployEnvVars key corp), mode⟩ cm c).trace := by
  refine ⟨rfl, rfl, ?_, ?_⟩
  · obtain ⟨s, f, t, htr, hs, hf, ht, hsiff, _⟩ :=
      runPipeline_trace_shape ⟨useRagFlag (deployEnvVars key corp), mode⟩ cm c
    have hs0 : s = [] := hsiff.mpr rfl
    rw [hs0] at htr
    rw [htr]
    rcases hf with rfl | rfl <;> rcases ht with rfl | rfl <;> decide
  · obtain ⟨s, f, t, htr, _, _, _, _, _⟩ :=
      runPipeline_trace_shape ⟨useRagFlag (deployEnvVars key corp), mode⟩ cm c
    rw [htr]
    simp

/-! ## Fixing-stage response protocol theorems -/

theorem asNum_eq_some {o : Option Json} {p : Int} :
    asNum o = some p ↔ o = some (Json.num p) := by
  rcases o with _ | j
  · simp [asNum]
  · cases j <;> simp [asNum]

theorem asStr_eq_some {o : Option Json} {s : String} :
    asStr o = some s ↔ o = some (Json.str s) := by
  rcases o with _ | j
  · simp [asStr]
  · cases j <;> simp [asStr]

theorem asArr_eq_some {o : Option Json} {xs : List Json} :
    asArr o = some xs ↔ o = some (Json.arr xs) := by
  rcases o with _ | j
  · simp [asArr]
  · cases j <;> simp [asArr]

theorem parsePlacement_isSome (j : Json) :
    (parsePlacement j).isSome = true ↔
      ((∃ p, jsonGet j "position" = some (Json.num p)) ∨
        (∃ s e, jsonGet j "start_line" = some (Json.num s) ∧
          jsonGet j "end_line" = some (Json.num e))) := by
  simp only [← asNum_eq_some]
  rcases hpos : asNum (jsonGet j "position") with _ | p <;>
    rcases hs : asNum (jsonGet j "start_line") with _ | s <;>
      rcases he : asNum (jsonGet j "end_line") with _ | e <;>
        simp [parsePlacement, hpos, hs, he]

theorem parsePatchItem_isSome (j : Json) :
    (parsePatchItem j).isSome = true ↔ PatchItemShape j := by
  unfold PatchItemShape
  simp only [← parsePlacement_isSome, ← asStr_eq_some]
  rcases hf : asStr (jsonGet j "file") with _ | f <;>
    rcases hpl : parsePlacement j with _ | pl <;>
      rcases hpa : asStr (jsonGet j "patch") with _ | pa <;>
        rcases hco : asStr (jsonGet j "comment") with _ | co <;>
          simp [parsePatchItem, hf, hpl, hpa, hco]

theorem parsePatchItems_isSome (xs : List Json) :
    (parsePatchItems xs).isSome = true ↔ ∀ x ∈ xs, PatchItemShape x := by
  induction xs with
  | nil => simp [parsePatchItems]
  | cons x rest ih =>
      rw [List.forall_mem_cons, ← parsePatchItem_isSome, ← ih]
      rcases hx : parsePatchItem x with _ | it <;>
        rcases hrest : parsePatchItems rest with _ | its <;>
          simp [parsePatchItems, hx, hrest]

theorem parsePatchSet_isSome (j : Json) :
    (parsePatchSet j).isSome = true ↔ PatchSetShape j := by
  unfold PatchSetShape
  simp only [← asArr_eq_some, ← asStr_eq_some]
  rcases harr : asArr (jsonGet j "patches") with _ | xs <;>
    rcases hco : asStr (jsonGet j "comment") with _ | co <;>
      simp [parsePatchSet, harr, hco, ← parsePatchItems_isSome]
  rcases hits : parsePatchItems xs with _ | its <;> simp [hits]

/-- C8: a patch-set response is accepted by the Fixing stage's protocol exactly
when it is a single JSON object carrying a "patches" array — each element with
a file path, a placement (a position or a start_line/end_line pair), a patch
string delimited by a literal fenced-suggestion block and a justification
comment — plus a top-level summary string; any response not of that shape is
treated as a stage-level recoverable error. -/
theorem fix_response_contract (j : Json) :
    ((∃ ps, handleFixResponse j = FixResponseOutcome.parsed ps) ↔
        PatchSetShape j) ∧
      (¬ PatchSetShape j →
        handleFixResponse j = FixResponseOutcome.recoverableError) := by
  constructor
  · rw [← parsePatchSet_isSome]
    rcases hp : parsePatchSet j with _ | ps <;> simp [handleFixResponse, hp]
  · intro hn
    rcases hp : parsePatchSet j with _ | ps
    · simp [handleFixResponse, hp]
    · exact absurd ((parsePatchSet_isSome j).mp (by rw [hp]; rfl)) hn

/-- Witness for C8: the concrete well-shaped response parses, and a bare
string response is a stage-level recoverable error. -/
theorem fix_response_contract_witness :
    (∃ ps, handleFixResponse exPatchSetJson = FixResponseOutcome.parsed ps) ∧
      handleFixResponse (Json.str "not a patch set") =
        FixResponseOutcome.recoverableError := by
  constructor
  · refine (fix_response_contract exPatchSetJson).1.mpr ?_
    refine ⟨[exPatchJson], "1 vulnerability fixed", rfl, rfl, ?_⟩
    intro x hx
    rw [List.mem_singleton.mp hx]
    exact ⟨⟨"src/main.py", rfl⟩,
      Or.inr ⟨11, 12, rfl, rfl⟩,
      ⟨"```suggestion\n    safe code\n```", rfl, by decide⟩,
      ⟨"parameterized query prevents injection", rfl⟩⟩
  · exact (fix_response_contract (Json.str "not a patch set")).2
      (by simp [PatchSetShape, jsonGet])

end Sentoru
